import Mathlib

/-!
Verification development for the PubMed/Twitter research bot
(src/pubmed-agent.ts, src/twitter-pubmed-agent.ts, src/personality-system.ts).

Strings are modelled as lists of characters; JavaScript string
operations (toLowerCase, includes, startsWith, split, trim, the concrete
regex replaces of simplifyText) are embedded as executable Lean functions
on List Char.  JavaScript numbers appearing in the scoring code are small
rationals, modelled by Rat; the one place where the code can produce NaN
(0/0 in scoreTermsPresence on an empty term list) is modelled by Option,
with none standing for NaN.
-/

set_option maxRecDepth 20000

/-- JavaScript whitespace class used by the regexes (the subset of \s
relevant here: space, tab, newline, carriage return, vertical tab, form feed). -/
def isWS (c : Char) : Bool :=
  c = ' ' || c = '\t' || c = '\n' || c = '\r' || c = '\x0b' || c = '\x0c'

/-- Lowercase a character (ASCII, as in the keyword comparisons of the source). -/
def lowC (c : Char) : Char := c.toLower

/-- JavaScript String.prototype.toLowerCase on the character-list model. -/
def toLowerL (l : List Char) : List Char := l.map lowC

/-- Does the list start with the given pattern (exact characters)? -/
def hasPref : List Char → List Char → Bool
  | [], _ => true
  | _ :: _, [] => false
  | p :: ps, c :: cs => p = c && hasPref ps cs

/-- JavaScript String.prototype.includes: does pat occur as a contiguous
substring of text?  (includes of the empty string is true, as in JS.) -/
def jsIncludes (text pat : List Char) : Bool :=
  match text with
  | [] => pat.isEmpty
  | _ :: t => hasPref pat text || jsIncludes t pat

/-- Convenience: a String literal turned into the character-list model. -/
def strL (s : String) : List Char := s.toList

/-- ### TermScorer (scoreTermsPresence, src/pubmed-agent.ts:427-438)

The raw arithmetic of scoreTermsPresence on a given text:
(number of terms occurring in the text, each term lowercased) divided by
the number of terms, times maxScore.  Meaningful only for a nonempty term
list; rateArticle only ever calls it with the concrete nonempty lists below. -/
def scoreVal (text : List Char) (terms : List String) (maxScore : ℚ) : ℚ :=
  ((terms.filter (fun term => jsIncludes text (toLowerL (strL term)))).length : ℚ)
    / (terms.length : ℚ) * maxScore

/-- scoreTermsPresence itself.  In JavaScript, an empty term list makes the
function compute (0/0)*maxScore = NaN; NaN is modelled as none. -/
def scoreTermsPresence (text : List Char) (terms : List String) (maxScore : ℚ) :
    Option ℚ :=
  if terms.length = 0 then none else some (scoreVal text terms maxScore)

/-- Term lists of rateArticle (src/pubmed-agent.ts:358-398), verbatim. -/
def noveltyTerms : List String :=
  ["first time", "novel", "breakthrough", "pioneering", "discovered",
   "new approach", "innovative", "groundbreaking", "first-in-human",
   "paradigm shift", "revolutionize"]

def impactTerms : List String :=
  ["significant", "substantial", "major", "important", "crucial",
   "life-saving", "effective", "efficacy", "survival", "mortality",
   "quality of life", "large cohort", "multi-center", "phase 3"]

def methodologyTerms : List String :=
  ["randomized", "double-blind", "placebo-controlled", "meta-analysis",
   "systematic review", "large sample", "longitudinal", "prospective",
   "controlled trial", "robust", "validated", "statistical significance"]

def relevanceTerms : List String :=
  ["public health", "common disease", "prevalent", "population",
   "widespread", "epidemic", "pandemic", "burden", "incidence",
   "morbidity", "mortality", "preventable", "treatment", "therapy"]

def redFlagTerms : List String :=
  ["preliminary", "limited sample", "pilot study", "small cohort",
   "inconclusive", "mixed results", "further research needed",
   "conflicting", "questionable", "limitations", "not statistically significant"]

/-- avoidTopics (src/pubmed-agent.ts:47-50), verbatim. -/
def avoidTopics : List String :=
  ["political", "controversial", "abortion", "gun", "religion", "alternative medicine",
   "unproven therapy", "unethical", "retracted", "disputed", "lawsuit"]

/-- minScoreToTweet = 7.5 (src/pubmed-agent.ts:39). -/
def minScoreToTweet : ℚ := 15 / 2

/-- The result record of rateArticle (interface ArticleRating, without the id). -/
structure ArticleRating where
  score : ℚ
  novelty : ℚ
  impact : ℚ
  methodology : ℚ
  relevance : ℚ
  tweetable : Bool
deriving Repr, DecidableEq

/-- The lowercased working text of rateArticle:
(article.title + " " + content.fullText).toLowerCase(). -/
def workText (title fullText : List Char) : List Char :=
  toLowerL (title ++ [' '] ++ fullText)

/-- rateArticle (src/pubmed-agent.ts:348-425).  Every call to
scoreTermsPresence is on one of the concrete nonempty term lists above,
where scoreTermsPresence = some (scoreVal ...); the sub-scores are
therefore written directly with scoreVal. -/
def rateArticle (title fullText : List Char) : ArticleRating :=
  let text := workText title fullText
  let novelty := scoreVal text noveltyTerms 10
  let impact := scoreVal text impactTerms 10
  let methodology := scoreVal text methodologyTerms 10
  let relevance := scoreVal text relevanceTerms 10
  let redFlagScore := scoreVal text redFlagTerms 10
  let controversialScore := scoreVal text avoidTopics 10
  let score :=
    novelty * (25 / 100) + impact * (3 / 10) + methodology * (25 / 100)
      + relevance * (2 / 10) - redFlagScore * (5 / 10) - controversialScore * 2
  let score := max 0 (min 10 score)
  { score := score
    novelty := novelty
    impact := impact
    methodology := methodology
    relevance := relevance
    tweetable := decide (minScoreToTweet ≤ score ∧ controversialScore < 5 / 10) }

/-- ### PostQueue (startQueueProcessor, src/twitter-pubmed-agent.ts:71-107)

The mutable fields of TwitterPubMedAgent touched by the queue processor:
the FIFO tweetQueue (entry texts; enqueuedAt is irrelevant to draining),
lastTweetTime (milliseconds, as an integer) and the daily counter. -/
structure QueueState where
  tweetQueue : List String
  lastTweetTime : ℤ
  tweetsPostedToday : ℕ
deriving Repr, DecidableEq

/-- tweetInterval = 3 hours in milliseconds (src/twitter-pubmed-agent.ts:21). -/
def tweetInterval : ℤ := 3 * 60 * 60 * 1000

/-- One drain tick of startQueueProcessor.  now is the tick time;
postResult models twitterClient.postTweet (some id on success, none on
failure).  Returns the new state and the text posted on this tick, if any.
The processingQueue busy flag serializes overlapping ticks; a tick is
atomic here, so the flag has no separate model. -/
def queueTick (s : QueueState) (now : ℤ) (postResult : String → Option String) :
    QueueState × Option String :=
  match s.tweetQueue with
  | [] => (s, none)
  | next :: rest =>
    if tweetInterval ≤ now - s.lastTweetTime then
      match postResult next with
      | some _ =>
        ({ tweetQueue := rest, lastTweetTime := now,
           tweetsPostedToday := s.tweetsPostedToday + 1 }, some next)
      | none => (s, none)
    else (s, none)

/-- Run a sequence of drain ticks; collects the posted texts in order. -/
def runQueue (s : QueueState) : List (ℤ × (String → Option String)) →
    QueueState × List String
  | [] => (s, [])
  | (now, pr) :: ticks =>
    let step := queueTick s now pr
    let rest := runQueue step.1 ticks
    (rest.1, step.2.toList ++ rest.2)

/-- maxDailyTweets = 5 (src/pubmed-agent.ts:36). -/
def maxDailyTweets : ℕ := 5

/-- One 4-hour discovery tick of scheduleJobs (src/pubmed-agent.ts:120-124):
findAndTweetTopArticle is invoked only when tweetsPostedToday <
maxDailyTweets.  passDelta is the number of increments the invoked pass
performs on the counter (0 or 1 in the base agent); the returned Bool
records whether the pass (article rating / posting) was invoked at all. -/
def discoveryTick (posted : ℕ) (passDelta : ℕ) : ℕ × Bool :=
  if posted < maxDailyTweets then (posted + passDelta, true) else (posted, false)

/-- A sequence of discovery ticks inside one day window (the 24-hour
counter reset does not occur inside the window). -/
def runDiscovery : ℕ → List ℕ → ℕ × List Bool
  | posted, [] => (posted, [])
  | posted, d :: ds =>
    let step := discoveryTick posted d
    let rest := runDiscovery step.1 ds
    (rest.1, step.2 :: rest.2)

/-- The state change of findAndTweetTopArticle
(src/pubmed-agent.ts:601-611) as executed by TwitterPubMedAgent when a
tweetable article is found at time now: postTweet is the override at
src/twitter-pubmed-agent.ts:335-347, which only appends the text to the
queue; the base method then still increments tweetsPostedToday and sets
lastTweetTime. -/
def discoverEnqueue (s : QueueState) (text : String) (now : ℤ) : QueueState :=
  { tweetQueue := s.tweetQueue ++ [text]
    lastTweetTime := now
    tweetsPostedToday := s.tweetsPostedToday + 1 }

/-- ### TextSimplifier (simplifyText, src/pubmed-agent.ts:496-512)

Each .replace of the source is embedded as a function on List Char.  The
concrete regexes involved are deterministic once the usual
greedy/backtracking rules are unfolded: every alternation in them is
between words that cannot both match at the same position (except the
these/the/our group, which is tried in order with full backtracking), and
every greedy \s+, \s*, \d+ is followed by a non-member character, so the
maximal run is the only viable choice. -/
def skipWS (l : List Char) : List Char := l.dropWhile (fun c => isWS c)

/-- Regex fragment \s+ : require at least one whitespace, consume the run. -/
def wsThen : List Char → Option (List Char)
  | [] => none
  | c :: cs => if isWS c then some (skipWS cs) else none

/-- Case-insensitive literal word at the head; returns the remainder. -/
def matchCI : List Char → List Char → Option (List Char)
  | [], l => some l
  | _ :: _, [] => none
  | p :: ps, c :: cs => if lowC p = lowC c then matchCI ps cs else none

/-- Case-sensitive literal word at the head; returns the remainder. -/
def matchCS : List Char → List Char → Option (List Char)
  | [], l => some l
  | _ :: _, [] => none
  | p :: ps, c :: cs => if p = c then matchCS ps cs else none

/-- Ordered alternation of case-insensitive words (for groups whose words
cannot both match at one position). -/
def altCI : List (List Char) → List Char → Option (List Char)
  | [], _ => none
  | w :: ws, l => matchCI w l <|> altCI ws l

/-- Ordered alternation of case-sensitive words. -/
def altCS : List (List Char) → List Char → Option (List Char)
  | [], _ => none
  | w :: ws, l => matchCS w l <|> altCS ws l

/-- Regex fragment [xy]? after a verb stem: the optional suffix letter is
consumed exactly when present (if present, the bare branch would need
whitespace at that letter and fail, so taking it is forced). -/
def optSuffix (sufs : List Char) : List Char → List Char
  | [] => []
  | c :: cs => if sufs.contains (lowC c) then cs else c :: cs

/-- The verb group of the first replace:
found|demonstrate[ds]?|show[ns]?|conclude[ds]?|observe[ds]?|note[ds]?|report[ds]?
(stems have pairwise distinct first letters, so at most one alternative applies). -/
def verbAlts1 : List (String × List Char) :=
  [("found", []), ("demonstrate", ['d', 's']), ("show", ['n', 's']),
   ("conclude", ['d', 's']), ("observe", ['d', 's']), ("note", ['d', 's']),
   ("report", ['d', 's'])]

def matchVerb1 : List (String × List Char) → List Char → Option (List Char)
  | [], _ => none
  | (stem, sufs) :: alts, l =>
    match matchCI (strL stem) l with
    | some rest => some (optSuffix sufs rest)
    | none => matchVerb1 alts l

/-- First replace:
/^\s*(?:we|the authors|researchers|this study)\s+(?:found|demonstrate[ds]?|show[ns]?|conclude[ds]?|observe[ds]?|note[ds]?|report[ds]?)\s+that\s+/i
removed from the front when it matches. -/
def strip1 (l : List Char) : List Char :=
  let l0 := skipWS l
  let attempt : Option (List Char) := do
    let l1 ← altCI [strL ("we"), strL ("the authors"), strL ("researchers"),
      strL ("this study")] l0
    let l2 ← wsThen l1
    let l3 ← matchVerb1 verbAlts1 l2
    let l4 ← wsThen l3
    let l5 ← matchCI (strL ("that")) l4
    wsThen l5
  match attempt with
  | some rest => rest
  | none => l

/-- Second and third replaces: /\(.*?\)/g and /\[.*?\]/g with ''.  The lazy
body cannot cross a line terminator ('.' does not match \n or \r); an
unmatched opener is kept verbatim together with everything buffered after
it (no closer can hide in the buffer, so rescanning it cannot match). -/
def remDelimGo (openC closeC : Char) : List Char → Option (List Char) → List Char
  | [], none => []
  | [], some buf => buf.reverse
  | c :: cs, none =>
    if c = openC then remDelimGo openC closeC cs (some [c])
    else c :: remDelimGo openC closeC cs none
  | c :: cs, some buf =>
    if c = closeC then remDelimGo openC closeC cs none
    else if c = '\n' || c = '\r' then buf.reverse ++ c :: remDelimGo openC closeC cs none
    else remDelimGo openC closeC cs (some (c :: buf))

def remDelim (openC closeC : Char) (l : List Char) : List Char :=
  remDelimGo openC closeC l none

/-- Connective words of the fourth replace (case-sensitive, no /i flag). -/
def connWords : List String :=
  ["respectively", "however", "therefore", "thus", "hence", "moreover"]

/-- After a ',' was seen: \s* word \s* ',' . -/
def tryConn (l : List Char) : Option (List Char) :=
  match altCS (connWords.map strL) (skipWS l) with
  | some l2 =>
    match skipWS l2 with
    | ',' :: rest => some rest
    | _ => none
  | none => none

/-- Fourth replace: /,\s*(?:respectively|however|therefore|thus|hence|moreover)\s*,/g
with ','.  Fuel-driven left-to-right scan; every step consumes at least one
character, so fuel = length is exact. -/
def stripConnGo : ℕ → List Char → List Char
  | 0, l => l
  | _ + 1, [] => []
  | fuel + 1, c :: cs =>
    if c = ',' then
      match tryConn cs with
      | some rest => ',' :: stripConnGo fuel rest
      | none => c :: stripConnGo fuel cs
    else c :: stripConnGo fuel cs

def stripConn (l : List Char) : List Char := stripConnGo l.length l

/-- Fifth replace: /\s+/g with ' ' — collapse every whitespace run. -/
def collapseWS : List Char → List Char
  | [] => []
  | [c] => if isWS c then [' '] else [c]
  | c :: c2 :: cs =>
    if isWS c && isWS c2 then collapseWS (c2 :: cs)
    else (if isWS c then ' ' else c) :: collapseWS (c2 :: cs)

/-- .trim() -/
def trimWS (l : List Char) : List Char :=
  ((l.dropWhile (fun c => isWS c)).reverse.dropWhile (fun c => isWS c)).reverse

/-- Sixth replace (seventh step of the chain):
/^\s*(?:these|the|our)\s+(?:data|results|findings)\s+(?:suggest|indicate|show|demonstrate|reveal)\s+that\s+/i.
"the" is a prefix of "these", so the subject group needs genuine ordered
backtracking; the rest of the pattern is deterministic. -/
def strip7 (l : List Char) : List Char :=
  let l0 := skipWS l
  let cont := fun (l1 : List Char) => do
    let l2 ← wsThen l1
    let l3 ← altCI [strL ("data"), strL ("results"), strL ("findings")] l2
    let l4 ← wsThen l3
    let l5 ← altCI [strL ("suggest"), strL ("indicate"), strL ("show"),
      strL ("demonstrate"), strL ("reveal")] l4
    let l6 ← wsThen l5
    let l7 ← matchCI (strL ("that")) l6
    wsThen l7
  match (matchCI (strL ("these")) l0).bind cont
      <|> (matchCI (strL ("the")) l0).bind cont
      <|> (matchCI (strL ("our")) l0).bind cont with
  | some rest => rest
  | none => l

/-- Seventh replace:
/^\s*(?:it\s+(?:is|was)\s+(?:found|shown|demonstrated|concluded)\s+that)\s+/i. -/
def strip8 (l : List Char) : List Char :=
  let l0 := skipWS l
  let attempt : Option (List Char) := do
    let l1 ← matchCI (strL ("it")) l0
    let l2 ← wsThen l1
    let l3 ← altCI [strL ("is"), strL ("was")] l2
    let l4 ← wsThen l3
    let l5 ← altCI [strL ("found"), strL ("shown"), strL ("demonstrated"),
      strL ("concluded")] l4
    let l6 ← wsThen l5
    let l7 ← matchCI (strL ("that")) l6
    wsThen l7
  match attempt with
  | some rest => rest
  | none => l

/-- Body of the p-value pattern after its leading \s+ :
p\s*(?:<|>|=)\s*0?\.\d+ . -/
def tryPVal (l : List Char) : Option (List Char) :=
  match l with
  | 'p' :: l1 =>
    match skipWS l1 with
    | c :: l3 =>
      if c = '<' || c = '>' || c = '=' then
        let l4 := skipWS l3
        let l5 := match l4 with
          | '0' :: rest => rest
          | _ => l4
        match l5 with
        | '.' :: l6 =>
          match l6 with
          | d :: _ =>
            if d.isDigit then some (l6.dropWhile (fun x => x.isDigit)) else none
          | [] => none
        | _ => none
      else none
    | [] => none
  | _ => none

/-- Eighth replace: /\s+(?:p\s*(?:<|>|=)\s*0?\.\d+)/ with '' — NOT global,
only the first occurrence is removed.  A match can only start at a
whitespace run, and all start positions inside one run behave alike. -/
def stripPVal : List Char → List Char
  | [] => []
  | c :: cs =>
    if isWS c then
      match tryPVal (skipWS cs) with
      | some rest => rest
      | none => c :: stripPVal cs
    else c :: stripPVal cs

/-- Body of the confidence-interval pattern after its leading \s+ :
\(\d+(?:\.\d+)?%\s*(?:CI|confidence interval)[^\)]+\) . -/
def tryConfInt (l : List Char) : Option (List Char) :=
  match l with
  | '(' :: l1 =>
    match l1 with
    | d :: _ =>
      if d.isDigit then
        let l2 := l1.dropWhile (fun x => x.isDigit)
        let l3 := match l2 with
          | '.' :: d2 :: rest =>
            if d2.isDigit then (d2 :: rest).dropWhile (fun x => x.isDigit) else l2
          | _ => l2
        match l3 with
        | '%' :: l4 =>
          match matchCS (strL ("CI")) (skipWS l4)
              <|> matchCS (strL ("confidence interval")) (skipWS l4) with
          | some l6 =>
            match l6 with
            | x :: _ =>
              if x = ')' then none
              else
                match l6.dropWhile (fun y => y != ')') with
                | ')' :: rest => some rest
                | _ => none
            | [] => none
          | none => none
        | _ => none
      else none
    | [] => none
  | _ => none

/-- Ninth replace: /\s+\(\d+(?:\.\d+)?%\s*(?:CI|confidence interval)[^\)]+\)/
with '' — not global, first occurrence only. -/
def stripConfInt : List Char → List Char
  | [] => []
  | c :: cs =>
    if isWS c then
      match tryConfInt (skipWS cs) with
      | some rest => rest
      | none => c :: stripConfInt cs
    else c :: stripConfInt cs

/-- The replace chain of simplifyText before the final period. -/
def simplifyCore (text : List Char) : List Char :=
  stripConfInt (stripPVal (strip8 (strip7 (trimWS (collapseWS (stripConn
    (remDelim '[' ']' (remDelim '(' ')' (strip1 text)))))))))

/-- simplifyText (src/pubmed-agent.ts:496-512): the replace chain, then
+ '.' appended unconditionally. -/
def simplifyText (text : List Char) : List Char := simplifyCore text ++ ['.']

/-- ### SummaryComposer payoff-sentence selection

content.fullText.split(/\.\s+/) — a separator is a period followed by a
whitespace run (greedy).  JS split keeps an empty trailing piece when the
string ends in a separator, and split of the empty string is [""]. -/
def splitSentGo : ℕ → List Char → List Char → List (List Char)
  | _, acc, [] => [acc.reverse]
  | 0, acc, rest => [acc.reverse ++ rest]
  | fuel + 1, acc, c :: cs =>
    if c = '.' && (match cs with | c2 :: _ => isWS c2 | [] => false) then
      acc.reverse :: splitSentGo fuel [] (cs.dropWhile (fun x => isWS x))
    else splitSentGo fuel (c :: acc) cs

/-- Every step of splitSentGo consumes at least one character and one unit
of fuel, so fuel = length + 1 never reaches the exhaustion branch. -/
def splitSentences (text : List Char) : List (List Char) :=
  splitSentGo (text.length + 1) [] text

/-- The five payoff keywords of the base agent
(PubMedAgent.generateSummary, src/pubmed-agent.ts:477-483). -/
def kw5 (s : List Char) : Bool :=
  jsIncludes (toLowerL s) (strL ("conclude")) ||
  jsIncludes (toLowerL s) (strL ("finding")) ||
  jsIncludes (toLowerL s) (strL ("result")) ||
  jsIncludes (toLowerL s) (strL ("demonstrate")) ||
  jsIncludes (toLowerL s) (strL ("show"))

/-- The three payoff keywords of the Twitter agent override
(TwitterPubMedAgent.generateSummary, src/twitter-pubmed-agent.ts:371-376). -/
def kw3 (s : List Char) : Bool :=
  jsIncludes (toLowerL s) (strL ("conclude")) ||
  jsIncludes (toLowerL s) (strL ("finding")) ||
  jsIncludes (toLowerL s) (strL ("result"))

/-- Payoff sentence of the base agent: first sentence satisfying kw5,
else the last sentence (splitSentences never returns []). -/
def baseMainPoint (fullText : List Char) : List Char :=
  let sents := splitSentences fullText
  ((sents.find? kw5).getD (sents.getLastD []))

/-- Payoff sentence of the Twitter agent override: first sentence
satisfying kw3, else the last sentence. -/
def twitterMainPoint (fullText : List Char) : List Char :=
  let sents := splitSentences fullText
  ((sents.find? kw3).getD (sents.getLastD []))

/-- ### PersonalityState (getPhrase, src/personality-system.ts:63-94)

The recently-used JS Set iterates in insertion order; it is modelled as a
list with the oldest entry first.  The random pick
Math.floor(Math.random()*availablePhrases.length) is modelled by an index
k into the available list (theorems quantify over valid k). -/
def availablePhrases (phrases lastUsed : List String) : List String :=
  phrases.filter (fun p => !(lastUsed.contains p))

/-- The recently-used list entering the add step: cleared exactly when no
phrase was available. -/
def drawBase (phrases lastUsed : List String) : List String :=
  if (availablePhrases phrases lastUsed).isEmpty then [] else lastUsed

def getPhrase (phrases : List String) (lastUsed : List String) (k : ℕ) :
    String × List String :=
  if phrases.isEmpty then ("", lastUsed)
  else
    let avail := if (availablePhrases phrases lastUsed).isEmpty then phrases
      else availablePhrases phrases lastUsed
    let selected := avail.getD k ""
    let used1 := drawBase phrases lastUsed ++ [selected]
    if 2 * used1.length > phrases.length then (selected, used1.drop 1)
    else (selected, used1)

/-- A sequence of draws from one category; returns the drawn phrases in
order and the final recently-used list. -/
def runDraws (phrases : List String) : List String → List ℕ →
    List String × List String
  | lastUsed, [] => ([], lastUsed)
  | lastUsed, k :: ks =>
    let step := getPhrase phrases lastUsed k
    let rest := runDraws phrases step.2 ks
    (step.1 :: rest.1, rest.2)

/-- ### MentionRouter (handleTwitterMention, src/twitter-pubmed-agent.ts:110-175) -/
inductive MentionRoute where
  | search
  | summarize (id : List Char)
  | summarizeErr
  | question
  | greeting
  | generic
deriving Repr, DecidableEq

/-- \w of JavaScript: ASCII letter, digit or underscore. -/
def isWordChar (c : Char) : Bool := c.isAlpha || c.isDigit || c = '_'

/-- /\b(\d{5,10})\b/ applied to the text: the first position with a word
boundary followed by a maximal digit run of length 5..10 that is again
word-bounded on the right.  (Inside a longer run no start position has a
left boundary and no length 5..10 has a right boundary, so a run of more
than 10 digits never matches.) -/
def leftBoundary : Option Char → Bool
  | none => true
  | some p => !(isWordChar p)

def rightBoundary : List Char → Bool
  | [] => true
  | r :: _ => !(isWordChar r)

def findPmidGo (prev : Option Char) : List Char → Option (List Char)
  | [] => none
  | c :: cs =>
    if c.isDigit && leftBoundary prev then
      let digits := (c :: cs).takeWhile (fun x => x.isDigit)
      let rest := (c :: cs).dropWhile (fun x => x.isDigit)
      if decide (5 ≤ digits.length) && decide (digits.length ≤ 10)
          && rightBoundary rest then
        some digits
      else findPmidGo (some c) cs
    else findPmidGo (some c) cs

def findPmid (t : List Char) : Option (List Char) := findPmidGo none t

/-- text.toLowerCase().startsWith(p). -/
def lowStarts (t : List Char) (p : List Char) : Bool := hasPref p (toLowerL t)

/-- /summarize\s+\d+/i somewhere in the text. -/
def summarizeNumAt (l : List Char) : Bool :=
  match matchCI (strL ("summarize")) l with
  | some r =>
    match wsThen r with
    | some r2 => (match r2 with | d :: _ => d.isDigit | [] => false)
    | none => false
  | none => false

def summarizeNum : List Char → Bool
  | [] => false
  | c :: cs => summarizeNumAt (c :: cs) || summarizeNum cs

/-- The search branch guard. -/
def searchCond (t : List Char) : Bool :=
  lowStarts t (strL ("/search")) || jsIncludes (toLowerL t) (strL ("search for"))

/-- The summarize branch guard. -/
def summarizeCond (t : List Char) : Bool :=
  lowStarts t (strL ("/summarize")) || summarizeNum t

/-- The question branch guard: '?' or an interrogative word. -/
def questionCond (t : List Char) : Bool :=
  jsIncludes t (strL ("?")) || jsIncludes (toLowerL t) (strL ("what")) ||
  jsIncludes (toLowerL t) (strL ("how")) || jsIncludes (toLowerL t) (strL ("why"))

/-- isGreeting (src/pubmed-agent.ts:163-166) applied to the lowercased text. -/
def greetingCond (t : List Char) : Bool :=
  [("hi" : String), "hello", "hey", "sup", "yo", "greetings", "howdy"].any
    (fun g => jsIncludes (toLowerL t) (strL g))

/-- The if/else-if chain of handleTwitterMention on the mention text
(the text already has /@\w+/g stripped and is trimmed). -/
def classifyMention (t : List Char) : MentionRoute :=
  if searchCond t then .search
  else if summarizeCond t then
    match findPmid t with
    | some id => .summarize id
    | none => .summarizeErr
  else if questionCond t then .question
  else if greetingCond t then .greeting
  else .generic

/-- ### PersonalityState enthusiasm lookup
(getTopicEnthusiasm, src/personality-system.ts:118-133)

topicEnthusiasm is a JS object iterated in insertion order: an association
list.  Property access obj[topic] is the first exact-key value;
`if (obj[topic])` is the JS truthiness test, false exactly for a stored 0
(NaN aside) and for a missing key. -/
def partialLookup (table : List (String × ℚ)) (topic : String) : ℚ :=
  ((table.find? (fun kv =>
      jsIncludes (strL topic) (strL kv.1) || jsIncludes (strL kv.1) (strL topic))).map
    (fun kv => kv.2)).getD 5

def getTopicEnthusiasm (table : List (String × ℚ)) (topic : String) : ℚ :=
  match table.lookup topic with
  | some v => if v ≠ 0 then v else partialLookup table topic
  | none => partialLookup table topic

/-! ## Theorems -/

/-- C1: for every article title and content text, the composite score of
rateArticle lies in [0,10]; the tweetable flag is true iff the composite
(clamped) score is at least 7.5 and the controversy sub-score (TermScorer
over avoidTopics with maxScore 10) is below 0.5; and the composite score
is the stated weighted combination clamped to [0,10]. -/
theorem rateArticle_score_tweetable (title fullText : List Char) :
    0 ≤ (rateArticle title fullText).score ∧
    (rateArticle title fullText).score ≤ 10 ∧
    ((rateArticle title fullText).tweetable = true ↔
      minScoreToTweet ≤ (rateArticle title fullText).score ∧
      scoreVal (workText title fullText) avoidTopics 10 < 5 / 10) ∧
    (rateArticle title fullText).score =
      max 0 (min 10
        (scoreVal (workText title fullText) noveltyTerms 10 * (25 / 100)
          + scoreVal (workText title fullText) impactTerms 10 * (3 / 10)
          + scoreVal (workText title fullText) methodologyTerms 10 * (25 / 100)
          + scoreVal (workText title fullText) relevanceTerms 10 * (2 / 10)
          - scoreVal (workText title fullText) redFlagTerms 10 * (5 / 10)
          - scoreVal (workText title fullText) avoidTopics 10 * 2)) := by
  refine ⟨le_max_left _ _, max_le (by norm_num) (min_le_left _ _), ?_, rfl⟩
  simp only [rateArticle, decide_eq_true_eq]

/-- C2: the claim says an empty term list must not divide by zero and must
yield exactly 0; in the code (matches / terms.length) is computed with no
guard, so an empty list yields (0/0)*maxScore = NaN (modelled none), not 0.
For a nonempty term list and nonnegative maxScore the claimed range
[0, maxScore] does hold. -/
theorem scoreTermsPresence_empty_nan :
    (∀ text m, scoreTermsPresence text [] m = none) ∧
    (∀ text terms m, terms ≠ [] → 0 ≤ m →
      scoreTermsPresence text terms m = some (scoreVal text terms m) ∧
      0 ≤ scoreVal text terms m ∧ scoreVal text terms m ≤ m) := by
  constructor
  · intro text m; rfl
  · intro text terms m hne hm
    have hlen : 0 < terms.length := List.length_pos.mpr hne
    have hlenQ : (0 : ℚ) < (terms.length : ℚ) := by exact_mod_cast hlen
    have hk : ((terms.filter (fun term => jsIncludes text (toLowerL (strL term)))).length : ℚ)
        ≤ (terms.length : ℚ) := by
      exact_mod_cast List.length_filter_le _ _
    have hk0 : (0 : ℚ) ≤
        ((terms.filter (fun term => jsIncludes text (toLowerL (strL term)))).length : ℚ) := by
      positivity
    refine ⟨?_, ?_, ?_⟩
    · unfold scoreTermsPresence
      simp [Nat.pos_iff_ne_zero.mp hlen]
    · unfold scoreVal
      positivity
    · unfold scoreVal
      have hratio : ((terms.filter (fun term =>
          jsIncludes text (toLowerL (strL term)))).length : ℚ) / (terms.length : ℚ) ≤ 1 :=
        (div_le_one hlenQ).mpr hk
      calc _ ≤ 1 * m := by
              apply mul_le_mul_of_nonneg_right hratio hm
           _ = m := one_mul m

/-- Witness for the nonempty-terms part of the C2 theorem. -/
theorem scoreTermsPresence_empty_nan_witness :
    scoreTermsPresence [] [("a" : String)] 10 = some (scoreVal [] [("a" : String)] 10) ∧
    0 ≤ scoreVal [] [("a" : String)] 10 ∧ scoreVal [] [("a" : String)] 10 ≤ 10 :=
  scoreTermsPresence_empty_nan.2 [] [("a" : String)] 10 (by decide) (by norm_num)

/-- One drain tick preserves queue contents: what is posted plus what
remains is exactly what was queued. -/
theorem queueTickFifoStep (s : QueueState) (now : ℤ) (pr : String → Option String) :
    (queueTick s now pr).2.toList ++ (queueTick s now pr).1.tweetQueue = s.tweetQueue := by
  unfold queueTick
  cases h : s.tweetQueue with
  | nil => simp [h]
  | cons a rest =>
    by_cases hI : tweetInterval ≤ now - s.lastTweetTime
    · cases hp : pr a <;> simp [hI, hp, h]
    · simp [hI, h]

/-- Over any tick sequence, the posted texts followed by the remaining
queue equal the original queue (hence posts come off in FIFO order). -/
theorem runQueueFifo (ticks : List (ℤ × (String → Option String))) :
    ∀ s : QueueState,
      (runQueue s ticks).2 ++ (runQueue s ticks).1.tweetQueue = s.tweetQueue := by
  induction ticks with
  | nil => intro s; simp [runQueue]
  | cons tk ticks ih =>
    intro s
    obtain ⟨now, pr⟩ := tk
    have h1 := queueTickFifoStep s now pr
    have h2 := ih (queueTick s now pr).1
    simp only [runQueue]
    rw [List.append_assoc, h2, h1]

/-- C3: posts drain in FIFO order (the posted sequence is always an
initial segment of the queue, so a is posted before b and at most one text
per tick); a failed post of the head leaves the whole state unchanged
(same head, same lastTweetTime, same daily counter); a successful post at
a qualifying tick posts exactly the head, pops it, sets lastTweetTime to
the tick time and increments the counter by one. -/
theorem postQueue_fifo_retry (s : QueueState)
    (ticks : List (ℤ × (String → Option String))) :
    ((runQueue s ticks).2 ++ (runQueue s ticks).1.tweetQueue = s.tweetQueue) ∧
    (∀ now pr a rest, s.tweetQueue = a :: rest → pr a = none →
      queueTick s now pr = (s, none)) ∧
    (∀ now pr a rest tid, s.tweetQueue = a :: rest →
      tweetInterval ≤ now - s.lastTweetTime → pr a = some tid →
      queueTick s now pr =
        ({ tweetQueue := rest, lastTweetTime := now,
           tweetsPostedToday := s.tweetsPostedToday + 1 }, some a)) := by
  refine ⟨runQueueFifo ticks s, ?_, ?_⟩
  · intro now pr a rest hq hp
    unfold queueTick
    rw [hq]
    by_cases hI : tweetInterval ≤ now - s.lastTweetTime <;> simp [hI, hp]
  · intro now pr a rest tid hq hI hp
    unfold queueTick
    rw [hq]
    simp [hI, hp]

/-- Witness for C3 at a concrete two-entry queue: a failing post of the
head changes nothing. -/
theorem postQueue_fifo_retry_witness :
    queueTick ⟨[("a" : String), "b"], 0, 0⟩ tweetInterval (fun _ => none) =
      (⟨[("a" : String), "b"], 0, 0⟩, none) :=
  (postQueue_fifo_retry ⟨[("a" : String), "b"], 0, 0⟩ []).2.1 tweetInterval
    (fun _ => none) ("a") [("b" : String)] rfl rfl

/-- Once the counter is at the cap, every later discovery tick of the
window skips the pass and leaves the counter unchanged. -/
theorem runDiscoverySkip (ds : List ℕ) :
    ∀ posted : ℕ, maxDailyTweets ≤ posted →
      (runDiscovery posted ds).1 = posted ∧
      ∀ b ∈ (runDiscovery posted ds).2, b = false := by
  induction ds with
  | nil => intro posted _; simp [runDiscovery]
  | cons d ds ih =>
    intro posted h
    have hstep : discoveryTick posted d = (posted, false) := by
      unfold discoveryTick
      simp [Nat.not_lt.mpr h]
    simp only [runDiscovery, hstep]
    obtain ⟨ih1, ih2⟩ := ih posted h
    refine ⟨ih1, ?_⟩
    intro b hb
    rcases List.mem_cons.mp hb with hb | hb
    · exact hb
    · exact ih2 b hb

/-- C4: once postsToday has reached the daily cap (5), the 4-hour
discovery timer never invokes findAndTweetTopArticle (no rating, no
posting) for the remainder of the day window, whatever the candidate
passes would have done; and the cap is checked only by this discovery
caller — the queue drain itself posts even with the counter at or above
the cap when its interval guard passes. -/
theorem dailyCap_enforced_by_caller (posted : ℕ) (h : maxDailyTweets ≤ posted)
    (ds : List ℕ) (s : QueueState) :
    (∀ b ∈ (runDiscovery posted ds).2, b = false) ∧
    ((runDiscovery posted ds).1 = posted) ∧
    (∀ now pr a rest tid, s.tweetQueue = a :: rest →
      maxDailyTweets ≤ s.tweetsPostedToday →
      tweetInterval ≤ now - s.lastTweetTime → pr a = some tid →
      (queueTick s now pr).2 = some a) := by
  obtain ⟨h1, h2⟩ := runDiscoverySkip ds posted h
  refine ⟨h2, h1, ?_⟩
  intro now pr a rest tid hq _ hI hp
  unfold queueTick
  rw [hq]
  simp [hI, hp]

/-- Witness for C4: counter at 5, two discovery ticks invoke nothing, and
the queue drain still posts with the counter at 5. -/
theorem dailyCap_enforced_by_caller_witness :
    (∀ b ∈ (runDiscovery 5 [1, 1]).2, b = false) ∧
    ((runDiscovery 5 [1, 1]).1 = 5) ∧
    (queueTick ⟨[("a" : String)], 0, 5⟩ tweetInterval (fun _ => some ("id"))).2 =
      some ("a") := by
  have h := dailyCap_enforced_by_caller 5 (by decide) [1, 1]
    ⟨[("a" : String)], 0, 5⟩
  exact ⟨h.1, h.2.1, h.2.2 tweetInterval (fun _ => some ("id")) ("a") [] ("id")
    rfl (by decide) (by decide) rfl⟩

/-- C5 counterexample: an input already ending in a period comes out with
two trailing periods (the chain appends '.' unconditionally), so the
output does not end with exactly one period; and a second application can
strip a leading attribution phrase that removing a parenthetical exposed,
so double application differs from single application by more than
whitespace/period normalization. -/
theorem simplifyText_cex :
    simplifyText (strL ("abc.")) = strL ("abc..") ∧
    (simplifyText (strL ("abc."))).dropLast.getLast? = some '.' ∧
    simplifyText (strL ("(note) we found that X")) = strL ("we found that X.") ∧
    simplifyText (simplifyText (strL ("(note) we found that X"))) = strL ("X..") := by
  refine ⟨by decide, by decide, by decide, by decide⟩

/-- C5 amended: the output of simplifyText always ends with a terminating
period: exactly one period is appended to the cleaned text, so the output
ends in exactly one period whenever the cleaned text does not itself end
in a period (full idempotency does not hold, see the counterexample). -/
theorem simplifyText_trailing_period (t : List Char) :
    (simplifyText t).getLast? = some '.' ∧
    ((simplifyCore t).getLast? ≠ some '.' →
      (simplifyText t).dropLast.getLast? ≠ some '.') := by
  constructor
  · exact List.getLast?_concat _
  · intro h
    unfold simplifyText
    rw [List.dropLast_concat]
    exact h

/-- Witness for C5 amended at a concrete input with no inner period. -/
theorem simplifyText_trailing_period_witness :
    (simplifyText (strL ("hello"))).getLast? = some '.' ∧
    (simplifyText (strL ("hello"))).dropLast.getLast? ≠ some '.' :=
  ⟨(simplifyText_trailing_period (strL ("hello"))).1,
   (simplifyText_trailing_period (strL ("hello"))).2 (by decide)⟩

/-- First-match characterization of List.find?: either some element
matches, the first matching one is returned and everything before it
fails, or nothing matches and find? is none. -/
theorem findFirstSpec {α : Type} (p : α → Bool) (l : List α) :
    (∃ pre x post, l = pre ++ x :: post ∧ p x = true ∧ (∀ y ∈ pre, p y = false) ∧
      l.find? p = some x) ∨
    ((∀ y ∈ l, p y = false) ∧ l.find? p = none) := by
  induction l with
  | nil => right; simp
  | cons a t ih =>
    cases hp : p a with
    | true =>
      left
      exact ⟨[], a, t, rfl, hp, by simp, by simp [List.find?, hp]⟩
    | false =>
      rcases ih with ⟨pre, x, post, hl, hx, hpre, hf⟩ | ⟨hall, hf⟩
      · left
        refine ⟨a :: pre, x, post, by rw [hl, List.cons_append], hx, ?_, ?_⟩
        · intro y hy
          rcases List.mem_cons.mp hy with rfl | hy
          · exact hp
          · exact hpre y hy
        · simp [List.find?, hp, hf]
      · right
        refine ⟨?_, by simp [List.find?, hp, hf]⟩
        intro y hy
        rcases List.mem_cons.mp hy with rfl | hy
        · exact hp
        · exact hall y hy

/-- splitSentences never returns the empty list (JS split always yields at
least one piece). -/
theorem splitSentGoNe : ∀ (fuel : ℕ) (acc l : List Char), splitSentGo fuel acc l ≠ [] := by
  intro fuel
  induction fuel with
  | zero => intro acc l; cases l <;> simp [splitSentGo]
  | succ n ih =>
    intro acc l
    cases l with
    | nil => simp [splitSentGo]
    | cons c cs =>
      rw [splitSentGo.eq_def]
      by_cases h : (c = '.' && (match cs with | c2 :: _ => isWS c2 | [] => false)) = true
      · simp [h]
      · simp only [h, if_neg, Bool.not_eq_true, if_false]
        exact ih (c :: acc) cs

/-- C6 counterexample: on content whose first sentence contains
"demonstrate" (one of the five claimed keywords) but none of
conclude/finding/result, the summary generation actually used by the
Twitter agent (the generateSummary override) picks the LAST sentence, not
that first sentence, because the override only checks the three keywords
conclude/finding/result. -/
theorem twitter_payoff_cex :
    kw5 (strL ("We demonstrate X")) = true ∧
    kw3 (strL ("We demonstrate X")) = false ∧
    splitSentences (strL ("We demonstrate X. Other stuff here")) =
      [strL ("We demonstrate X"), strL ("Other stuff here")] ∧
    baseMainPoint (strL ("We demonstrate X. Other stuff here")) =
      strL ("We demonstrate X") ∧
    twitterMainPoint (strL ("We demonstrate X. Other stuff here")) =
      strL ("Other stuff here") := by
  refine ⟨by decide, by decide, by decide, by decide, by decide⟩

/-- C6 amended: the Twitter agent's generateSummary override selects the
first sentence containing any of the three keywords conclude, finding,
result (case-insensitive), else the last sentence; the five-keyword rule
(adding demonstrate and show) holds only for the base PubMedAgent
implementation of generateSummary. -/
theorem payoff_selection (ft : List Char) :
    splitSentences ft ≠ [] ∧
    ((∃ pre x post, splitSentences ft = pre ++ x :: post ∧ kw3 x = true ∧
        (∀ y ∈ pre, kw3 y = false) ∧ twitterMainPoint ft = x) ∨
      ((∀ y ∈ splitSentences ft, kw3 y = false) ∧
        twitterMainPoint ft = (splitSentences ft).getLastD [])) ∧
    ((∃ pre x post, splitSentences ft = pre ++ x :: post ∧ kw5 x = true ∧
        (∀ y ∈ pre, kw5 y = false) ∧ baseMainPoint ft = x) ∨
      ((∀ y ∈ splitSentences ft, kw5 y = false) ∧
        baseMainPoint ft = (splitSentences ft).getLastD [])) := by
  refine ⟨splitSentGoNe (ft.length + 1) [] ft, ?_, ?_⟩
  · rcases findFirstSpec kw3 (splitSentences ft) with
      ⟨pre, x, post, hl, hx, hpre, hf⟩ | ⟨hall, hf⟩
    · left
      exact ⟨pre, x, post, hl, hx, hpre, by simp only [twitterMainPoint]; rw [hf]; rfl⟩
    · right
      exact ⟨hall, by simp only [twitterMainPoint]; rw [hf]; rfl⟩
  · rcases findFirstSpec kw5 (splitSentences ft) with
      ⟨pre, x, post, hl, hx, hpre, hf⟩ | ⟨hall, hf⟩
    · left
      exact ⟨pre, x, post, hl, hx, hpre, by simp only [baseMainPoint]; rw [hf]; rfl⟩
    · right
      exact ⟨hall, by simp only [baseMainPoint]; rw [hf]; rfl⟩

/-- C7 counterexample: in a 6-phrase category, the draws with random picks
always landing on the first available phrase give p1, p2, p3, p4, p1 —
phrase p1 repeats on the fifth draw (fewer than 6 draws) although p5 and
p6 have never been drawn, because after the fourth draw the window
exceeded half the category size and evicted p1. -/
theorem getPhrase_norepeat_cex :
    (runDraws [("p1" : String), "p2", "p3", "p4", "p5", "p6"] [] [0, 0, 0, 0, 0]).1 =
      [("p1" : String), "p2", "p3", "p4", "p1"] ∧
    ¬ (runDraws [("p1" : String), "p2", "p3", "p4", "p5", "p6"] []
        [0, 0, 0, 0, 0]).1.Nodup ∧
    ("p5" : String) ∉
      (runDraws [("p1" : String), "p2", "p3", "p4", "p5", "p6"] [] [0, 0, 0, 0, 0]).1 := by
  refine ⟨by decide, by decide, by decide⟩

/-- C7 amended: a draw never returns a phrase that is currently in the
recently-used window (so no repeat while a phrase remains tracked), but
the full no-repeat-until-all-drawn guarantee fails once eviction begins
(see the counterexample); the window is cleared only when it covers every
phrase of the category; the drawn phrase is recorded and the single
oldest-inserted entry is evicted exactly when the window size exceeds half
the category size, keeping the window at most half the category (plus
one-half, rounded). -/
theorem getPhrase_window (phrases lastUsed : List String) (k : ℕ)
    (hne : phrases.isEmpty = false)
    (hk : k < (if (availablePhrases phrases lastUsed).isEmpty then phrases
        else availablePhrases phrases lastUsed).length) :
    (getPhrase phrases lastUsed k).1 ∈ phrases ∧
    ((availablePhrases phrases lastUsed).isEmpty = false →
      (getPhrase phrases lastUsed k).1 ∉ lastUsed) ∧
    ((availablePhrases phrases lastUsed).isEmpty = true ↔
      ∀ p ∈ phrases, p ∈ lastUsed) ∧
    (getPhrase phrases lastUsed k).2 =
      (if 2 * ((drawBase phrases lastUsed).length + 1) > phrases.length
       then (drawBase phrases lastUsed ++ [(getPhrase phrases lastUsed k).1]).drop 1
       else drawBase phrases lastUsed ++ [(getPhrase phrases lastUsed k).1]) ∧
    (2 * lastUsed.length ≤ phrases.length + 1 →
      2 * (getPhrase phrases lastUsed k).2.length ≤ phrases.length + 1) := by
  have hmain : getPhrase phrases lastUsed k =
      ((if (availablePhrases phrases lastUsed).isEmpty then phrases
          else availablePhrases phrases lastUsed).getD k "",
        if 2 * ((drawBase phrases lastUsed).length + 1) > phrases.length
        then (drawBase phrases lastUsed ++
          [(if (availablePhrases phrases lastUsed).isEmpty then phrases
            else availablePhrases phrases lastUsed).getD k ""]).drop 1
        else drawBase phrases lastUsed ++
          [(if (availablePhrases phrases lastUsed).isEmpty then phrases
            else availablePhrases phrases lastUsed).getD k ""]) := by
    simp only [getPhrase, hne, Bool.false_eq_true, if_false]
    rw [show (drawBase phrases lastUsed ++
        [(if (availablePhrases phrases lastUsed).isEmpty then phrases
          else availablePhrases phrases lastUsed).getD k ""]).length =
        (drawBase phrases lastUsed).length + 1 from by simp]
    split <;> rfl
  have hselMem : (getPhrase phrases lastUsed k).1 ∈
      (if (availablePhrases phrases lastUsed).isEmpty then phrases
        else availablePhrases phrases lastUsed) := by
    rw [hmain]
    simp only []
    rw [List.getD_eq_getElem _ _ hk]
    exact List.getElem_mem hk
  refine ⟨?_, ?_, ?_, ?_, ?_⟩
  · by_cases hclr : (availablePhrases phrases lastUsed).isEmpty
    · rw [if_pos hclr] at hselMem
      exact hselMem
    · rw [if_neg hclr] at hselMem
      exact (List.mem_filter.mp hselMem).1
  · intro hclr
    rw [hclr] at hselMem
    simp only [Bool.false_eq_true, if_false] at hselMem
    have := (List.mem_filter.mp hselMem).2
    simpa using this
  · constructor
    · intro hclr p hp
      have hnil : availablePhrases phrases lastUsed = [] := by
        simpa [List.isEmpty_iff] using hclr
      have hfil := List.filter_eq_nil_iff.mp hnil p hp
      simpa using hfil
    · intro hall
      have hnil : availablePhrases phrases lastUsed = [] := by
        apply List.filter_eq_nil_iff.mpr
        intro p hp
        simpa using hall p hp
      simp [hnil]
  · rw [hmain]
  · intro hbound
    have hbase : (drawBase phrases lastUsed).length ≤ lastUsed.length := by
      unfold drawBase
      split <;> simp
    rw [hmain]
    simp only []
    split <;> rename_i hsplit <;>
      simp only [List.length_drop, List.length_append, List.length_cons,
        List.length_nil] <;> omega

/-- Witness for C7 amended at a concrete three-phrase category. -/
theorem getPhrase_window_witness :
    (getPhrase [("a" : String), "b", "c"] [] 0).1 ∈ [("a" : String), "b", "c"] ∧
    ((availablePhrases [("a" : String), "b", "c"] []).isEmpty = false →
      (getPhrase [("a" : String), "b", "c"] [] 0).1 ∉ ([] : List String)) :=
  ⟨(getPhrase_window [("a" : String), "b", "c"] [] 0 (by decide) (by decide)).1,
   (getPhrase_window [("a" : String), "b", "c"] [] 0 (by decide) (by decide)).2.1⟩

/-- findPmid only ever returns a word-bounded run of 5 to 10 digits. -/
theorem findPmidDigits :
    ∀ (l : List Char) (prev : Option Char) (id : List Char),
      findPmidGo prev l = some id →
      5 ≤ id.length ∧ id.length ≤ 10 ∧ ∀ c ∈ id, c.isDigit = true := by
  intro l
  induction l with
  | nil => intro prev id h; simp [findPmidGo] at h
  | cons c cs ih =>
    intro prev id h
    simp only [findPmidGo] at h
    by_cases h1 : (c.isDigit && leftBoundary prev) = true
    · rw [if_pos h1] at h
      by_cases h2 : (decide (5 ≤ ((c :: cs).takeWhile (fun x => x.isDigit)).length) &&
          decide (((c :: cs).takeWhile (fun x => x.isDigit)).length ≤ 10) &&
          rightBoundary ((c :: cs).dropWhile (fun x => x.isDigit))) = true
      · rw [if_pos h2] at h
        obtain ⟨h21, h22⟩ := Bool.and_eq_true_iff.mp h2
        obtain ⟨h211, h212⟩ := Bool.and_eq_true_iff.mp h21
        obtain rfl : (c :: cs).takeWhile (fun x => x.isDigit) = id :=
          Option.some.inj h
        refine ⟨by simpa using h211, by simpa using h212, ?_⟩
        intro x hx
        exact List.mem_takeWhile_imp hx
      · rw [if_neg h2] at h
        exact ih (some c) id h
    · rw [if_neg h1] at h
      exact ih (some c) id h

/-- C8: the mention text "/summarize 33445566" routes to the summarize
handler with id "33445566"; any extracted id is a word-bounded run of 5-10
digits; when the summarize branch is reached and no such id exists the
router takes the error-reply branch instead of the handler; and
classification is first-match-wins in the order search, summarize,
question, greeting, generic. -/
theorem mentionRouter_spec (t : List Char) :
    classifyMention (strL ("/summarize 33445566")) =
      MentionRoute.summarize (strL ("33445566")) ∧
    (∀ id, findPmid t = some id →
      5 ≤ id.length ∧ id.length ≤ 10 ∧ ∀ c ∈ id, c.isDigit = true) ∧
    (searchCond t = true → classifyMention t = MentionRoute.search) ∧
    (searchCond t = false → summarizeCond t = true →
      ((∀ id, findPmid t = some id → classifyMention t = MentionRoute.summarize id) ∧
        (findPmid t = none → classifyMention t = MentionRoute.summarizeErr))) ∧
    (searchCond t = false → summarizeCond t = false → questionCond t = true →
      classifyMention t = MentionRoute.question) ∧
    (searchCond t = false → summarizeCond t = false → questionCond t = false →
      greetingCond t = true → classifyMention t = MentionRoute.greeting) ∧
    (searchCond t = false → summarizeCond t = false → questionCond t = false →
      greetingCond t = false → classifyMention t = MentionRoute.generic) := by
  refine ⟨by decide, fun id h => findPmidDigits t none id h, ?_, ?_, ?_, ?_, ?_⟩
  · intro h1
    simp [classifyMention, h1]
  · intro h1 h2
    constructor
    · intro id hid
      simp [classifyMention, h1, h2, hid]
    · intro hid
      simp [classifyMention, h1, h2, hid]
  · intro h1 h2 h3
    simp [classifyMention, h1, h2, h3]
  · intro h1 h2 h3 h4
    simp [classifyMention, h1, h2, h3, h4]
  · intro h1 h2 h3 h4
    simp [classifyMention, h1, h2, h3, h4]

/-- Witness for C8 at concrete mention texts. -/
theorem mentionRouter_spec_witness :
    classifyMention (strL ("search for microbiome research")) = MentionRoute.search ∧
    classifyMention (strL ("/summarize hello")) = MentionRoute.summarizeErr :=
  ⟨(mentionRouter_spec (strL ("search for microbiome research"))).2.2.1 (by decide),
   ((mentionRouter_spec (strL ("/summarize hello"))).2.2.2.1 (by decide)
     (by decide)).2 (by decide)⟩

/-- C9 counterexample: with enthusiasm table {neuro: 8, neuroscience: 0},
the topic "neuroscience" is an exact key with stored value 0, but the
lookup returns 8: the JS truthiness test `if (topicEnthusiasm[topic])` is
false for a stored 0, so the code falls through to partial matching and
the earlier entry "neuro" (a substring of the topic) wins. -/
theorem getTopicEnthusiasm_cex :
    List.lookup ("neuroscience")
      [(("neuro" : String), (8 : ℚ)), (("neuroscience" : String), 0)] = some 0 ∧
    getTopicEnthusiasm
      [(("neuro" : String), (8 : ℚ)), (("neuroscience" : String), 0)]
      ("neuroscience") = 8 := by
  refine ⟨by decide, by decide⟩

/-- C9 amended: the exact-key value is returned only when it is nonzero
(JS-truthy); a stored 0 — like a missing key — falls through to the
partial scan, which returns the value of the first entry in table order
whose key is a substring of the topic or of which the topic is a
substring, and 5 when no entry matches. -/
theorem getTopicEnthusiasm_lookup (table : List (String × ℚ)) (topic : String) :
    (∀ v, table.lookup topic = some v → v ≠ 0 →
      getTopicEnthusiasm table topic = v) ∧
    (table.lookup topic = none →
      getTopicEnthusiasm table topic = partialLookup table topic) ∧
    (table.lookup topic = some 0 →
      getTopicEnthusiasm table topic = partialLookup table topic) ∧
    (∀ kv, table.find? (fun kv =>
        jsIncludes (strL topic) (strL kv.1) || jsIncludes (strL kv.1) (strL topic)) =
        some kv → partialLookup table topic = kv.2) ∧
    (table.find? (fun kv =>
        jsIncludes (strL topic) (strL kv.1) || jsIncludes (strL kv.1) (strL topic)) =
        none → partialLookup table topic = 5) := by
  refine ⟨?_, ?_, ?_, ?_, ?_⟩
  · intro v hv hnz
    simp [getTopicEnthusiasm, hv, hnz]
  · intro hv
    simp [getTopicEnthusiasm, hv]
  · intro hv
    simp [getTopicEnthusiasm, hv]
  · intro kv hkv
    simp [partialLookup, hkv]
  · intro hkv
    simp [partialLookup, hkv]

/-- Witness for C9 amended. -/
theorem getTopicEnthusiasm_lookup_witness :
    getTopicEnthusiasm [(("cancer" : String), (9 : ℚ))] ("cancer") = 9 ∧
    partialLookup [(("cancer" : String), (9 : ℚ))] ("xyz") = 5 :=
  ⟨(getTopicEnthusiasm_lookup [(("cancer" : String), (9 : ℚ))] ("cancer")).1 9
      (by decide) (by norm_num),
   (getTopicEnthusiasm_lookup [(("cancer" : String), (9 : ℚ))] ("xyz")).2.2.2.2
      (by decide)⟩

/-- C10: in the Twitter agent pipeline one successfully published article
moves the daily counter up by TWO, not one: findAndTweetTopArticle still
runs the inherited counter increment right after the overridden postTweet
merely enqueues the text, and the queue drain increments the counter again
when the tweet is actually posted.  Starting from an empty queue and
counter 0, discovery of one tweetable article followed by one successful
drain tick leaves tweetsPostedToday = 2 for a single outbound post. -/
theorem counter_double_increment :
    (discoverEnqueue ⟨[], 0, 0⟩ ("tweet") 0).tweetsPostedToday = 1 ∧
    (discoverEnqueue ⟨[], 0, 0⟩ ("tweet") 0).tweetQueue = [("tweet" : String)] ∧
    queueTick (discoverEnqueue ⟨[], 0, 0⟩ ("tweet") 0) tweetInterval
        (fun _ => some ("id")) =
      (⟨[], tweetInterval, 2⟩, some ("tweet")) := by
  refine ⟨by decide, by decide, by decide⟩

/-- Witness for the C6 characterization at a concrete content text. -/
theorem payoff_selection_witness :
    splitSentences (strL ("alpha. beta")) ≠ [] :=
  (payoff_selection (strL ("alpha. beta"))).1
